import Mathlib

/- A shallow embedding of sortify (src/main.rs): a single-pass batch
   file-sorting tool. It enumerates eligible files in a target directory,
   partitions them into batches, asks an LLM endpoint for a
   filename-to-category mapping per batch (with a bounded retry loop),
   parses the free-text response as a JSON object, sanitizes categories
   into directory names, and moves files into category directories.
   Network and filesystem effects are modelled by explicit oracles and an
   explicit filesystem state. -/

/-- Whitespace recognized when trimming model output before JSON parsing
(the ASCII whitespace shared by Rust str::trim and serde_json; Rust trim
also strips other Unicode whitespace, which no claim exercises). -/
def isWs (c : Char) : Bool := c = ' ' || c = '\t' || c = '\n' || c = '\r'

/-- Drop leading and trailing whitespace from a character list (models
str::trim in main.rs line 126). -/
def trimChars (l : List Char) : List Char :=
  ((l.dropWhile isWs).reverse.dropWhile isWs).reverse

/-- A filename-to-category mapping, the result of deserializing the model
response (HashMap String String in main.rs line 131). Represented as an
association list with at most one entry per key. -/
abbrev Mapping := List (String × String)

/-- Insert with last-key-wins semantics, as serde_json deserialization
into HashMap behaves on duplicate keys. -/
def mapInsert (m : Mapping) (k v : String) : Mapping :=
  m.filter (fun p => p.1 != k) ++ [(k, v)]

/-- Lookup in a mapping (HashMap get, main.rs line 164). -/
def mapLookup (m : Mapping) (k : String) : Option String :=
  (m.find? (fun p => p.1 == k)).map (fun p => p.2)

/-- Category sanitizer (main.rs lines 165-166): keep only alphanumeric
characters; an empty result falls back to the literal Other. The Rust
char::is_alphanumeric predicate (full Unicode tables) is abstracted as the
parameter alnum. -/
def sanitize (alnum : Char → Bool) (raw : String) : String :=
  let s := String.mk (raw.data.filter alnum)
  if s = ("") then ("Other") else s

/-- Numeric value of a hexadecimal digit, as in JSON unicode escapes. -/
def hexVal (c : Char) : Option Nat :=
  if 48 ≤ c.toNat ∧ c.toNat ≤ 57 then some (c.toNat - 48)
  else if 97 ≤ c.toNat ∧ c.toNat ≤ 102 then some (c.toNat - 87)
  else if 65 ≤ c.toNat ∧ c.toNat ≤ 70 then some (c.toNat - 55)
  else none

/-- Skip JSON insignificant whitespace. -/
def skipWs : List Char → List Char
  | [] => []
  | c :: l => if isWs c then skipWs l else c :: l

/-- Parse the body of a JSON string literal after the opening quote,
returning the decoded characters and the remaining input. Models the
string grammar serde_json accepts: the simple escapes, unicode escapes
with surrogate pairs, and a ban on raw control characters. -/
def parseJStringBody : List Char → Option (List Char × List Char)
  | [] => none
  | '"' :: rest => some ([], rest)
  | '\\' :: '"' :: rest => (parseJStringBody rest).map (fun p => ('"' :: p.1, p.2))
  | '\\' :: '\\' :: rest => (parseJStringBody rest).map (fun p => ('\\' :: p.1, p.2))
  | '\\' :: '/' :: rest => (parseJStringBody rest).map (fun p => ('/' :: p.1, p.2))
  | '\\' :: 'b' :: rest => (parseJStringBody rest).map (fun p => (Char.ofNat 8 :: p.1, p.2))
  | '\\' :: 'f' :: rest => (parseJStringBody rest).map (fun p => (Char.ofNat 12 :: p.1, p.2))
  | '\\' :: 'n' :: rest => (parseJStringBody rest).map (fun p => ('\n' :: p.1, p.2))
  | '\\' :: 'r' :: rest => (parseJStringBody rest).map (fun p => ('\r' :: p.1, p.2))
  | '\\' :: 't' :: rest => (parseJStringBody rest).map (fun p => ('\t' :: p.1, p.2))
  | '\\' :: 'u' :: a :: b :: c :: d :: rest =>
    match hexVal a, hexVal b, hexVal c, hexVal d with
    | some ha, some hb, some hc, some hd =>
      let n := ((ha * 16 + hb) * 16 + hc) * 16 + hd
      if n < 55296 ∨ 57343 < n then
        (parseJStringBody rest).map (fun p => (Char.ofNat n :: p.1, p.2))
      else if n ≤ 56319 then
        match rest with
        | '\\' :: 'u' :: a2 :: b2 :: c2 :: d2 :: rest2 =>
          match hexVal a2, hexVal b2, hexVal c2, hexVal d2 with
          | some ha2, some hb2, some hc2, some hd2 =>
            let m := ((ha2 * 16 + hb2) * 16 + hc2) * 16 + hd2
            if 56320 ≤ m ∧ m ≤ 57343 then
              (parseJStringBody rest2).map
                (fun p => (Char.ofNat (65536 + (n - 55296) * 1024 + (m - 56320)) :: p.1, p.2))
            else none
          | _, _, _, _ => none
        | _ => none
      else none
    | _, _, _, _ => none
  | c :: rest => if c.toNat < 32 then none else (parseJStringBody rest).map (fun p => (c :: p.1, p.2))

/-- Parse a JSON string literal, opening quote included. -/
def parseJString (l : List Char) : Option (List Char × List Char) :=
  match l with
  | '"' :: rest => parseJStringBody rest
  | _ => none

/-- Parse the member list of a JSON object, positioned at a key,
accumulating entries into the mapping; values must themselves be strings
(deserializing into HashMap String String rejects any other value shape).
After the closing brace nothing may remain (the caller has trimmed
surrounding whitespace). Fuel bounds the recursion by the input length. -/
def parseMemberList (fuel : Nat) (acc : Mapping) (l : List Char) : Option Mapping :=
  match fuel with
  | 0 => none
  | fuel + 1 =>
    match parseJString l with
    | none => none
    | some (k, r1) =>
      match skipWs r1 with
      | ':' :: r2 =>
        match parseJString (skipWs r2) with
        | none => none
        | some (v, r3) =>
          match skipWs r3 with
          | ',' :: r4 => parseMemberList fuel (mapInsert acc (String.mk k) (String.mk v)) (skipWs r4)
          | '\x7d' :: r4 => if r4 = [] then some (mapInsert acc (String.mk k) (String.mk v)) else none
          | _ => none
      | _ => none

/-- Parse a whole character list as exactly one JSON object with string
values, with no surrounding text (the caller trims whitespace). Together
with that trimming this models serde_json from_str for HashMap String
String: non-object JSON and objects with non-string values are rejected
whole. -/
def parseTopObject (l : List Char) : Option Mapping :=
  match l with
  | '\x7b' :: rest =>
    match skipWs rest with
    | '\x7d' :: r2 => if r2 = [] then some [] else none
    | r => parseMemberList l.length [] r
  | _ => none

/-- Deserialize a plain string the way serde_json from_str does for
HashMap String String: surrounding whitespace is insignificant, and
exactly one JSON object with string values must be present. -/
def serdeFromStr (s : String) : Option Mapping :=
  parseTopObject (trimChars s.data)

/-- Rust str::strip_prefix on character lists: some remainder when p is a
prefix of l, none otherwise. -/
def stripPreChars : List Char → List Char → Option (List Char)
  | [], l => some l
  | _ :: _, [] => none
  | p :: ps, c :: cs => if p = c then stripPreChars ps cs else none

/-- The unwrap_or pattern of main.rs lines 127-128: strip the marker if
present, else keep the text. -/
def stripPreOr (p l : List Char) : List Char :=
  match stripPreChars p l with
  | some r => r
  | none => l

/-- Rust str::strip_suffix with the same unwrap_or pattern (main.rs line
129), via reversal. -/
def stripSufOr (p l : List Char) : List Char :=
  match stripPreChars p.reverse l.reverse with
  | some r => r.reverse
  | none => l

/-- Cleaning of the raw model output before JSON parsing (main.rs lines
126-129): trim, then strip a literal code-fence opener carrying the json
tag, then a bare opener, then a closing fence. -/
def cleanChars (l : List Char) : List Char :=
  stripSufOr (("```").data)
    (stripPreOr (("```").data)
      (stripPreOr (("```json").data) (trimChars l)))

/-- The Response Parser (main.rs lines 126-131): clean the fencing, then
deserialize the remaining text as a JSON object with string values. -/
def parseResponse (raw : String) : Option Mapping :=
  parseTopObject (trimChars (cleanChars raw.data))

/-- Outcome of one network attempt as the retry loop observes it (main.rs
lines 110-146): transport error, non-success HTTP status, an envelope
body that fails to deserialize, or an envelope whose response field holds
the raw model text. -/
inductive AttemptResult where
  | netErr (msg : String)
  | httpErr (status : Nat) (body : String)
  | badEnvelope (msg : String)
  | envelope (response : String)
deriving DecidableEq

/-- Maximum number of attempts per batch (max_retries, main.rs line 107). -/
def max_retries : Nat := 3

/-- The mapping one attempt yields, if any: only a successfully parsed
envelope produces a mapping (main.rs lines 116-146). -/
def attemptMapping (r : AttemptResult) : Option Mapping :=
  match r with
  | AttemptResult.envelope resp => parseResponse resp
  | _ => none

/-- The diagnostic lines one attempt prints to stderr (main.rs lines
116-146); the serde error text inside the parse diagnostic is abstracted
away, the raw response text it carries is kept. -/
def attemptLog (attempt maxR : Nat) (r : AttemptResult) : List String :=
  match r with
  | AttemptResult.netErr e =>
    [("Network Error (Attempt ") ++ toString attempt ++ ("/") ++ toString maxR ++ ("): ") ++ e]
  | AttemptResult.httpErr status body =>
    [("API Error (Attempt ") ++ toString attempt ++ ("/") ++ toString maxR ++ ("): ")
      ++ toString status ++ (" - ") ++ body]
  | AttemptResult.badEnvelope e =>
    [("Failed to parse response body (Attempt ") ++ toString attempt ++ ("/")
      ++ toString maxR ++ ("): ") ++ e]
  | AttemptResult.envelope resp =>
    match parseResponse resp with
    | some _ => []
    | none =>
      [(("JSON Parse Error (Attempt ") ++ toString attempt ++ ("/") ++ toString maxR
        ++ ("). Response was: ")) ++ resp]

/-- The retry loop of process_batch (main.rs lines 110-152): run attempts
attempt, attempt+1, ... while remaining is positive, stopping at the
first attempt that yields a mapping. Returns the mapping found, if any,
paired with the number of the last attempt executed. -/
def classifyLoop (oracle : Nat → AttemptResult) (attempt remaining : Nat) : Option Mapping × Nat :=
  match remaining with
  | 0 => (none, attempt - 1)
  | r + 1 =>
    match attemptMapping (oracle attempt) with
    | some m => (some m, attempt)
    | none => classifyLoop oracle (attempt + 1) r

/-- The Classification Client for one batch: up to max_retries attempts,
first success wins, exhaustion yields no mapping (spec section 4.3;
main.rs lines 107-152). -/
def classify (oracle : Nat → AttemptResult) : Option Mapping × Nat :=
  classifyLoop oracle 1 max_retries

/-- Filesystem state as the placement loop affects it: category
directories existing under the target root, files still at their original
top-level path, and files already moved into a category directory, as
(category, filename) pairs. -/
structure Fs where
  dirs : List String
  atRoot : List String
  inDir : List (String × String)
deriving DecidableEq

/-- Directory creation step (main.rs lines 168-171): create the category
directory unless it exists; a creation failure (oracle cf) propagates as
an error, which the question-mark operator turns into an early return
from process_batch. -/
def createDirIfNeeded (cf : String → Bool) (fs : Fs) (cat : String) : Except String Fs :=
  if cat ∈ fs.dirs then Except.ok fs
  else if cf cat then Except.error ("Failed to create category directory")
  else Except.ok (Fs.mk (cat :: fs.dirs) fs.atRoot fs.inDir)

/-- Placement of one file (main.rs lines 162-176): look the filename up
in the mapping; if absent do nothing; else sanitize the category, ensure
the directory, and rename. A rename failure (oracle rf) is swallowed with
ok(), leaving the file in place. -/
def placeFile (alnum : Char → Bool) (cf rf : String → Bool) (mapping : Mapping)
    (fs : Fs) (filename : String) : Except String Fs :=
  match mapLookup mapping filename with
  | none => Except.ok fs
  | some category =>
    let cat := sanitize alnum category
    match createDirIfNeeded cf fs cat with
    | Except.error e => Except.error e
    | Except.ok fs1 =>
      if rf filename then Except.ok fs1
      else Except.ok (Fs.mk fs1.dirs (fs1.atRoot.erase filename) ((cat, filename) :: fs1.inDir))

/-- The placement loop over a batch (main.rs lines 162-177), with the
question-mark propagation of directory-creation errors. -/
def placeBatch (alnum : Char → Bool) (cf rf : String → Bool) (mapping : Mapping)
    (fs : Fs) : List String → Except String Fs
  | [] => Except.ok fs
  | f :: rest =>
    match placeFile alnum cf rf mapping fs f with
    | Except.error e => Except.error e
    | Except.ok fs1 => placeBatch alnum cf rf mapping fs1 rest

/-- One batch end to end (process_batch, main.rs lines 81-180): classify,
and if a mapping was obtained, place the batch; if classification
exhausted its retries, skip the batch leaving the state untouched. -/
def process_batch (oracle : Nat → AttemptResult) (cf rf : String → Bool) (alnum : Char → Bool)
    (fs : Fs) (batch : List String) : Except String Fs :=
  match (classify oracle).1 with
  | none => Except.ok fs
  | some mapping => placeBatch alnum cf rf mapping fs batch

/-- The sequential batch loop of main (main.rs lines 73-75): batches are
processed in order, each receiving its own attempt oracle, and an error
from process_batch propagates and aborts the run. -/
def runBatches (oracles : Nat → Nat → AttemptResult) (cf rf : String → Bool)
    (alnum : Char → Bool) (fs : Fs) (i : Nat) : List (List String) → Except String Fs
  | [] => Except.ok fs
  | b :: rest =>
    match process_batch (oracles i) cf rf alnum fs b with
    | Except.error e => Except.error e
    | Except.ok fs1 => runBatches oracles cf rf alnum fs1 (i + 1) rest

/-- One directory entry as main.rs sees it: whether it is a directory,
and its base name when that name is valid UTF-8 (the to_str call on an
OsStr), none otherwise. -/
structure DirEntry where
  isDir : Bool
  name : Option String
deriving DecidableEq

/-- Eligible-file enumeration (main.rs lines 57-65): skip directories,
skip entries whose names are not valid UTF-8, skip dot-prefixed names. -/
def eligibleFiles (entries : List DirEntry) : List String :=
  entries.filterMap (fun e =>
    if e.isDir then none
    else
      match e.name with
      | none => none
      | some n => if n.startsWith (".") then none else some n)

/-- Partition a list into consecutive chunks of size n, the last possibly
shorter (slice::chunks, main.rs line 73). Rust panics on n = 0; that case
is modelled as producing no chunks and is excluded by hypothesis wherever
it matters. -/
def chunksOf {α : Type} (n : Nat) (l : List α) : List (List α) :=
  match l with
  | [] => []
  | x :: xs =>
    if _h : n = 0 then []
    else (x :: xs).take n :: chunksOf n ((x :: xs).drop n)
termination_by l.length
decreasing_by simp [List.length_drop]; omega

/-- Default batch size (clap default for batch_size, main.rs line 25). -/
def default_batch_size : Nat := 15

/-- The whole run after the precondition check (main.rs lines 54-78):
enumerate eligible files once, chunk them, and process the chunks
sequentially starting from an all-at-root filesystem state. -/
def runMain (oracles : Nat → Nat → AttemptResult) (cf rf : String → Bool)
    (alnum : Char → Bool) (entries : List DirEntry) (batchSize : Nat) : Except String Fs :=
  let files := eligibleFiles entries
  runBatches oracles cf rf alnum (Fs.mk [] files []) 0 (chunksOf batchSize files)

/- Helper lemmas about whitespace trimming. -/

theorem dropWhile_ws_of_head (l : List Char)
    (h : ∀ c, l.head? = some c → isWs c = false) : l.dropWhile isWs = l := by
  cases l with
  | nil => rfl
  | cons c cs => simp [List.dropWhile_cons, h c rfl]

theorem dropWhile_ws_append (w r : List Char) (hw : ∀ c ∈ w, isWs c = true) :
    (w ++ r).dropWhile isWs = r.dropWhile isWs := by
  induction w with
  | nil => rfl
  | cons c cs ih =>
    have hc : isWs c = true := hw c (List.mem_cons_self c cs)
    rw [List.cons_append, List.dropWhile_cons, if_pos hc]
    exact ih (fun x hx => hw x (List.mem_cons_of_mem c hx))

theorem trimChars_sandwich (w1 w2 l : List Char)
    (hw1 : ∀ c ∈ w1, isWs c = true) (hw2 : ∀ c ∈ w2, isWs c = true)
    (hh : ∀ c, l.head? = some c → isWs c = false)
    (hl : ∀ c, l.getLast? = some c → isWs c = false)
    (hne : l ≠ []) :
    trimChars (w1 ++ l ++ w2) = l := by
  unfold trimChars
  rw [List.append_assoc, dropWhile_ws_append _ _ hw1]
  have h1 : (l ++ w2).dropWhile isWs = l ++ w2 := by
    apply dropWhile_ws_of_head
    intro c hc
    cases l with
    | nil => exact absurd rfl hne
    | cons a as =>
      rw [List.cons_append] at hc
      have ha : a = c := by simpa using hc
      exact ha ▸ hh a rfl
  rw [h1, List.reverse_append]
  rw [dropWhile_ws_append _ _ (fun c hc => hw2 c (List.mem_reverse.mp hc))]
  have h2 : l.reverse.dropWhile isWs = l.reverse := by
    apply dropWhile_ws_of_head
    intro c hc
    rw [List.head?_reverse] at hc
    exact hl c hc
  rw [h2, List.reverse_reverse]

theorem trimChars_id (l : List Char)
    (hh : ∀ c, l.head? = some c → isWs c = false)
    (hl : ∀ c, l.getLast? = some c → isWs c = false)
    (hne : l ≠ []) : trimChars l = l := by
  have h := trimChars_sandwich [] [] l (by intro c hc; cases hc) (by intro c hc; cases hc) hh hl hne
  simpa using h

theorem stripPreChars_cancel (p q r : List Char) :
    stripPreChars (p ++ q) (p ++ r) = stripPreChars q r := by
  induction p with
  | nil => rfl
  | cons c cs ih => simp [stripPreChars, ih]

theorem stripPreChars_self_append (p l : List Char) :
    stripPreChars p (p ++ l) = some l := by
  have h := stripPreChars_cancel p [] l
  simpa [stripPreChars] using h

/- C4: the Category Sanitizer. -/

/-- C4: sanitize retains exactly the alphanumeric characters of its input
in order and falls back to the literal Other when the filtered result is
empty; every result is non-empty and purely alphanumeric; with the
concrete sample values. The Unicode is_alphanumeric predicate is the
parameter alnum; the hypotheses pin it to accept the letters of Other and
to agree with the ASCII table on the concrete sample inputs. -/
theorem claim_C4 (alnum : Char → Bool)
    (hOther : ∀ c ∈ (("Other") : String).data, alnum c = true)
    (hs1 : ∀ c ∈ (("!!!") : String).data, alnum c = Char.isAlphanum c)
    (hs2 : ∀ c ∈ (("My Invoices 2024!") : String).data, alnum c = Char.isAlphanum c) :
    (∀ s, (sanitize alnum s).data = s.data.filter alnum
        ∨ (s.data.filter alnum = [] ∧ sanitize alnum s = ("Other")))
    ∧ (∀ s, sanitize alnum s ≠ (""))
    ∧ (∀ s, ∀ c ∈ (sanitize alnum s).data, alnum c = true)
    ∧ sanitize alnum ("") = ("Other")
    ∧ sanitize alnum ("!!!") = ("Other")
    ∧ sanitize alnum ("My Invoices 2024!") = ("MyInvoices2024") := by
  have hmk : ∀ l : List Char, String.mk l = ("") ↔ l = [] := by
    intro l
    constructor
    · intro h
      have := congrArg String.data h
      simpa using this
    · intro h; rw [h]
  refine ⟨?_, ?_, ?_, ?_, ?_, ?_⟩
  · intro s
    by_cases h : s.data.filter alnum = []
    · exact Or.inr ⟨h, by simp [sanitize, (hmk _).mpr h]⟩
    · refine Or.inl ?_
      rw [sanitize]
      simp only [if_neg (fun hc => h ((hmk _).mp hc))]
  · intro s
    by_cases h : s.data.filter alnum = []
    · simp [sanitize, (hmk _).mpr h]
    · rw [sanitize]
      simp only [if_neg (fun hc => h ((hmk _).mp hc))]
      intro hc
      exact h ((hmk _).mp hc)
  · intro s c hc
    by_cases h : s.data.filter alnum = []
    · rw [sanitize] at hc
      simp only [(hmk _).mpr h, if_pos rfl] at hc
      exact hOther c hc
    · rw [sanitize] at hc
      simp only [if_neg (fun hc2 => h ((hmk _).mp hc2))] at hc
      exact (List.mem_filter.mp hc).2
  · rfl
  · have he : (("!!!") : String).data.filter alnum = [] := by
      rw [List.filter_congr hs1]
      decide
    simp [sanitize, (hmk _).mpr he]
  · have he : (("My Invoices 2024!") : String).data.filter alnum
        = (("MyInvoices2024") : String).data := by
      rw [List.filter_congr hs2]
      decide
    rw [sanitize]
    simp only [he]
    rw [if_neg (by intro hc; have := congrArg String.data hc; simp at this)]

/-- C4 witness: the sanitizer theorem applied at the ASCII alphanumeric
table, which agrees with the Unicode one on all sample inputs. -/
theorem claim_C4_witness :
    sanitize Char.isAlphanum ("") = ("Other")
    ∧ sanitize Char.isAlphanum ("!!!") = ("Other")
    ∧ sanitize Char.isAlphanum ("My Invoices 2024!") = ("MyInvoices2024") := by
  have h := claim_C4 Char.isAlphanum (by decide) (fun c _ => rfl) (fun c _ => rfl)
  exact ⟨h.2.2.2.1, h.2.2.2.2.1, h.2.2.2.2.2⟩

/- C10: enumeration excludes names that are not valid UTF-8. -/

/-- C10: a non-directory entry whose name is not valid UTF-8 is silently
excluded from the eligible-file set, so the whole run (classification and
placement included) is unaffected by its presence. -/
theorem claim_C10 (l1 l2 : List DirEntry) (e : DirEntry)
    (hd : e.isDir = false) (hn : e.name = none) :
    eligibleFiles (l1 ++ e :: l2) = eligibleFiles (l1 ++ l2)
    ∧ (∀ oracles cf rf alnum n,
        runMain oracles cf rf alnum (l1 ++ e :: l2) n
          = runMain oracles cf rf alnum (l1 ++ l2) n) := by
  have h1 : eligibleFiles (l1 ++ e :: l2) = eligibleFiles (l1 ++ l2) := by
    unfold eligibleFiles
    rw [List.filterMap_append, List.filterMap_append, List.filterMap_cons]
    simp [hd, hn]
  exact ⟨h1, fun oracles cf rf alnum n => by unfold runMain; rw [h1]⟩

/-- C10 witness: a concrete directory listing with one UTF-8 name and one
non-UTF-8 non-directory entry. -/
theorem claim_C10_witness :
    eligibleFiles ([DirEntry.mk false (some ("a.txt")), DirEntry.mk false none])
      = eligibleFiles ([DirEntry.mk false (some ("a.txt"))]) := by
  have h := claim_C10 ([DirEntry.mk false (some ("a.txt"))]) [] (DirEntry.mk false none) rfl rfl
  simpa using h.1

/- Helper lemmas about chunking. -/

theorem chunksOf_cons_eq {α : Type} (n : Nat) (x : α) (xs : List α) (hn : n ≠ 0) :
    chunksOf n (x :: xs) = (x :: xs).take n :: chunksOf n ((x :: xs).drop n) := by
  rw [chunksOf]
  simp [hn]

theorem chunksOf_flatten {α : Type} (n : Nat) (hn : n ≠ 0) :
    ∀ l : List α, (chunksOf n l).flatten = l
  | [] => by simp [chunksOf]
  | x :: xs => by
    rw [chunksOf_cons_eq n x xs hn, List.flatten_cons,
      chunksOf_flatten n hn ((x :: xs).drop n)]
    exact List.take_append_drop n (x :: xs)
termination_by l => l.length
decreasing_by simp [List.length_drop]; omega

theorem chunksOf_length_le {α : Type} (n : Nat) (hn : n ≠ 0) :
    ∀ l : List α, ∀ c ∈ chunksOf n l, c.length ≤ n
  | [] => by simp [chunksOf]
  | x :: xs => by
    rw [chunksOf_cons_eq n x xs hn]
    intro c hc
    rcases List.mem_cons.mp hc with h | h
    · subst h
      simp [List.length_take]
    · exact chunksOf_length_le n hn ((x :: xs).drop n) c h
termination_by l => l.length
decreasing_by simp [List.length_drop]; omega

theorem chunksOf_eq_nil_iff {α : Type} (n : Nat) (hn : n ≠ 0) (l : List α) :
    chunksOf n l = [] ↔ l = [] := by
  cases l with
  | nil => simp [chunksOf]
  | cons x xs => rw [chunksOf_cons_eq n x xs hn]; simp

theorem chunksOf_full {α : Type} (n : Nat) (hn : n ≠ 0) :
    ∀ (l : List α) (i : Nat) (c : List α), (chunksOf n l)[i]? = some c →
      i + 1 < (chunksOf n l).length → c.length = n
  | [], i, c, hc, h => by simp [chunksOf] at h
  | x :: xs, 0, c, hc, h => by
    rw [chunksOf_cons_eq n x xs hn] at h hc
    have hrest : chunksOf n ((x :: xs).drop n) ≠ [] := by
      intro he
      rw [he] at h
      simp at h
    have hdrop : (x :: xs).drop n ≠ [] :=
      fun he => hrest ((chunksOf_eq_nil_iff n hn _).mpr he)
    have hlen : n < (x :: xs).length := by
      have := List.length_pos.mpr hdrop
      rw [List.length_drop] at this
      omega
    simp at hc
    subst hc
    simp only [List.length_take, List.length_cons]
    simp only [List.length_cons] at hlen
    omega
  | x :: xs, i + 1, c, hc, h => by
    rw [chunksOf_cons_eq n x xs hn] at h hc
    have h2 : i + 1 < (chunksOf n ((x :: xs).drop n)).length := by
      simp at h
      omega
    simp at hc
    exact chunksOf_full n hn ((x :: xs).drop n) i c hc h2
termination_by l => l.length
decreasing_by all_goals simp [List.length_drop]; omega

/- C8: batching. -/

/-- C8: the eligible-file list is partitioned into ordered batches of the
configured size in enumeration order: the batches concatenate back to the
original list (every file in exactly one batch, order preserved, no
overlap), each batch is at most the configured size, every batch except
possibly the last is exactly that size, the default size is 15, the run
processes exactly these batches, and batches are processed strictly
sequentially. -/
theorem claim_C8 (n : Nat) (hn : 0 < n) (l : List String) :
    ((chunksOf n l).flatten = l)
    ∧ (∀ c ∈ chunksOf n l, c.length ≤ n)
    ∧ (∀ i c, (chunksOf n l)[i]? = some c → i + 1 < (chunksOf n l).length → c.length = n)
    ∧ default_batch_size = 15
    ∧ (∀ oracles cf rf alnum entries,
        runMain oracles cf rf alnum entries n
          = runBatches oracles cf rf alnum (Fs.mk [] (eligibleFiles entries) []) 0
              (chunksOf n (eligibleFiles entries)))
    ∧ (∀ oracles cf rf alnum fs i b rest fs1,
        process_batch (oracles i) cf rf alnum fs b = Except.ok fs1 →
        runBatches oracles cf rf alnum fs i (b :: rest)
          = runBatches oracles cf rf alnum fs1 (i + 1) rest) := by
  have hn0 : n ≠ 0 := Nat.pos_iff_ne_zero.mp hn
  refine ⟨chunksOf_flatten n hn0 l, chunksOf_length_le n hn0 l, chunksOf_full n hn0 l, rfl,
    fun oracles cf rf alnum entries => rfl, ?_⟩
  intro oracles cf rf alnum fs i b rest fs1 hok
  simp [runBatches, hok]

/-- C8 witness: the batching theorem applied at size 2 and a concrete
five-element file list. -/
theorem claim_C8_witness :
    (chunksOf 2 (["a", "b", "c", "d", "e"])).flatten = (["a", "b", "c", "d", "e"]) := by
  exact (claim_C8 2 (by decide) (["a", "b", "c", "d", "e"])).1

/- Helper lemmas about the retry loop. -/

theorem classifyLoop_snd_le (p : Nat → AttemptResult) :
    ∀ (r a : Nat), (classifyLoop p a r).2 ≤ a + r - 1
  | 0, a => by simp [classifyLoop]
  | r + 1, a => by
    rw [classifyLoop]
    cases attemptMapping (p a) with
    | none =>
      have := classifyLoop_snd_le p r (a + 1)
      simpa [Nat.add_assoc, Nat.add_comm 1 r] using this
    | some m => simp

/- C2: batch exhaustion. -/

/-- C2: when all three attempts for a batch fail to produce a valid
mapping, classify returns no mapping after exactly 3 attempts, the batch
is skipped with the filesystem state untouched (no file moved, no
directory created), and the run continues with the next batch. -/
theorem claim_C2 (oracles : Nat → Nat → AttemptResult) (i : Nat)
    (h1 : attemptMapping (oracles i 1) = none)
    (h2 : attemptMapping (oracles i 2) = none)
    (h3 : attemptMapping (oracles i 3) = none) :
    classify (oracles i) = (none, 3)
    ∧ (∀ cf rf alnum fs batch,
        process_batch (oracles i) cf rf alnum fs batch = Except.ok fs)
    ∧ (∀ cf rf alnum fs batch rest,
        runBatches oracles cf rf alnum fs i (batch :: rest)
          = runBatches oracles cf rf alnum fs (i + 1) rest) := by
  have hc : classify (oracles i) = (none, 3) := by
    simp [classify, max_retries, classifyLoop, h1, h2, h3]
  refine ⟨hc, ?_, ?_⟩
  · intro cf rf alnum fs batch
    simp [process_batch, hc]
  · intro cf rf alnum fs batch rest
    simp [runBatches, process_batch, hc]

/-- C2 witness: a run whose endpoint is unreachable on every attempt
leaves a concrete two-file batch untouched and proceeds. -/
theorem claim_C2_witness :
    classify ((fun _ _ => AttemptResult.netErr ("connection refused")) 0) = (none, 3)
    ∧ process_batch ((fun _ _ => AttemptResult.netErr ("connection refused")) 0)
        (fun _ => false) (fun _ => false) Char.isAlphanum
        (Fs.mk [] (["a.txt", "b.txt"]) []) (["a.txt", "b.txt"])
        = Except.ok (Fs.mk [] (["a.txt", "b.txt"]) []) := by
  have h := claim_C2 (fun _ _ => AttemptResult.netErr ("connection refused")) 0 rfl rfl rfl
  exact ⟨h.1, h.2.1 (fun _ => false) (fun _ => false) Char.isAlphanum
    (Fs.mk [] (["a.txt", "b.txt"]) []) (["a.txt", "b.txt"])⟩

/- C3: retry semantics. -/

/-- C3: the Classification Client makes at most 3 attempts; the first
attempt whose response parses is returned immediately; in particular when
attempts 1 and 2 fail and attempt 3 parses to a mapping, that mapping is
returned after exactly 3 attempts, and the result never depends on the
oracle beyond attempt 3 (no 4th attempt is consulted). -/
theorem claim_C3 (o : Nat → AttemptResult) (m : Mapping) (resp : String)
    (h1 : attemptMapping (o 1) = none)
    (h2 : attemptMapping (o 2) = none)
    (h3 : o 3 = AttemptResult.envelope resp)
    (hp : parseResponse resp = some m) :
    classify o = (some m, 3)
    ∧ (∀ p : Nat → AttemptResult, (classify p).2 ≤ max_retries)
    ∧ (∀ p q : Nat → AttemptResult, (∀ j, 1 ≤ j → j ≤ 3 → p j = q j) → classify p = classify q)
    ∧ (∀ p : Nat → AttemptResult, ∀ m1, attemptMapping (p 1) = some m1 →
        classify p = (some m1, 1)) := by
  have ha3 : attemptMapping (o 3) = some m := by
    rw [h3]
    simpa [attemptMapping] using hp
  refine ⟨?_, ?_, ?_, ?_⟩
  · simp [classify, max_retries, classifyLoop, h1, h2, ha3]
  · intro p
    have := classifyLoop_snd_le p max_retries 1
    simpa [classify, max_retries] using this
  · intro p q hagree
    have e1 := hagree 1 (by omega) (by omega)
    have e2 := hagree 2 (by omega) (by omega)
    have e3 := hagree 3 (by omega) (by omega)
    simp [classify, max_retries, classifyLoop, e1, e2, e3]
  · intro p m1 h
    simp [classify, max_retries, classifyLoop, h]

/-- C3 witness: an oracle failing on attempts 1 and 2 with a parseable
envelope on attempt 3 yields that mapping after exactly 3 attempts. -/
theorem claim_C3_witness :
    classify (fun j => if j = 3 then AttemptResult.envelope ("\x7b\"a.txt\":\"Docs\"\x7d")
        else AttemptResult.netErr ("x"))
      = (some ([("a.txt", "Docs")]), 3) := by
  exact (claim_C3
    (fun j => if j = 3 then AttemptResult.envelope ("\x7b\"a.txt\":\"Docs\"\x7d")
      else AttemptResult.netErr ("x"))
    ([("a.txt", "Docs")]) ("\x7b\"a.txt\":\"Docs\"\x7d") rfl rfl rfl (by decide)).1

/- Helper lemmas about placement. -/

theorem placeFile_ok (alnum : Char → Bool) (cf rf : String → Bool) (mapping : Mapping)
    (hcf : ∀ d, cf d = false) (fs : Fs) (f0 : String) :
    ∃ fs1, placeFile alnum cf rf mapping fs f0 = Except.ok fs1
      ∧ fs1.atRoot.Sublist fs.atRoot
      ∧ (∀ d ∈ fs.dirs, d ∈ fs1.dirs)
      ∧ (∀ p ∈ fs.inDir, p ∈ fs1.inDir)
      ∧ (∀ p ∈ fs1.inDir, p ∈ fs.inDir
          ∨ (p.2 = f0 ∧ ∃ c, mapLookup mapping f0 = some c ∧ p.1 = sanitize alnum c))
      ∧ (∀ d ∈ fs1.dirs, d ∈ fs.dirs ∨ ∃ c, mapLookup mapping f0 = some c ∧ d = sanitize alnum c)
      ∧ (∀ g, (g ≠ f0 ∨ mapLookup mapping g = none) →
          ((g ∈ fs1.atRoot ↔ g ∈ fs.atRoot) ∧ (∀ c, (c, g) ∈ fs1.inDir ↔ (c, g) ∈ fs.inDir)))
      ∧ (∀ c, mapLookup mapping f0 = some c → rf f0 = false →
          (sanitize alnum c, f0) ∈ fs1.inDir ∧ sanitize alnum c ∈ fs1.dirs
          ∧ (fs.atRoot.Nodup → f0 ∉ fs1.atRoot)) := by
  cases hlk : mapLookup mapping f0 with
  | none =>
    refine ⟨fs, by simp [placeFile, hlk], List.Sublist.refl _, fun d hd => hd, fun p hp => hp,
      fun p hp => Or.inl hp, fun d hd => Or.inl hd,
      fun g _ => ⟨Iff.rfl, fun c => Iff.rfl⟩, ?_⟩
    intro c hc
    exact Option.noConfusion hc
  | some category =>
    have hcat := hcf (sanitize alnum category)
    refine ⟨Fs.mk
        (if sanitize alnum category ∈ fs.dirs then fs.dirs
          else sanitize alnum category :: fs.dirs)
        (if rf f0 then fs.atRoot else fs.atRoot.erase f0)
        (if rf f0 then fs.inDir else (sanitize alnum category, f0) :: fs.inDir),
      ?_, ?_, ?_, ?_, ?_, ?_, ?_, ?_⟩
    · by_cases hdir : sanitize alnum category ∈ fs.dirs <;>
        by_cases hrf : rf f0 <;>
        simp [placeFile, hlk, createDirIfNeeded, hcat, hdir, hrf]
    · by_cases hrf : rf f0 <;> simp [hrf, List.erase_sublist]
    · intro d hd
      by_cases hdir : sanitize alnum category ∈ fs.dirs <;> simp [hdir, hd]
    · intro p hp
      by_cases hrf : rf f0 <;> simp [hrf, hp]
    · intro p hp
      by_cases hrf : rf f0
      · simp only [hrf, if_pos rfl] at hp
        exact Or.inl hp
      · simp only [hrf, if_neg Bool.false_ne_true, List.mem_cons] at hp
        rcases hp with h | h
        · exact Or.inr ⟨by rw [h], category, rfl, by rw [h]⟩
        · exact Or.inl h
    · intro d hd
      by_cases hdir : sanitize alnum category ∈ fs.dirs
      · simp only [if_pos hdir] at hd
        exact Or.inl hd
      · simp only [if_neg hdir, List.mem_cons] at hd
        rcases hd with h | h
        · exact Or.inr ⟨category, rfl, h⟩
        · exact Or.inl h
    · intro g hg
      have hgne : g ≠ f0 := by
        rcases hg with h | h
        · exact h
        · intro he
          rw [he, hlk] at h
          exact Option.noConfusion h
      constructor
      · by_cases hrf : rf f0
        · simp [hrf]
        · simp only [hrf, if_neg Bool.false_ne_true]
          exact List.mem_erase_of_ne hgne
      · intro c
        by_cases hrf : rf f0
        · simp [hrf]
        · simp only [hrf, if_neg Bool.false_ne_true, List.mem_cons]
          constructor
          · rintro (h | h)
            · exact absurd (congrArg Prod.snd h) hgne
            · exact h
          · exact Or.inr
    · intro c hc hrf
      have hceq : category = c := Option.some.inj hc
      subst hceq
      refine ⟨?_, ?_, ?_⟩
      · simp [hrf]
      · by_cases hdir : sanitize alnum category ∈ fs.dirs <;> simp [hdir]
      · intro hnd
        simp only [hrf, if_neg Bool.false_ne_true]
        rw [List.Nodup.mem_erase_iff hnd]
        simp

theorem placeBatch_invariant (alnum : Char → Bool) (cf rf : String → Bool) (mapping : Mapping)
    (hcf : ∀ d, cf d = false) :
    ∀ (batch : List String) (fs : Fs), ∃ fs1,
      placeBatch alnum cf rf mapping fs batch = Except.ok fs1
      ∧ fs1.atRoot.Sublist fs.atRoot
      ∧ (∀ d ∈ fs.dirs, d ∈ fs1.dirs)
      ∧ (∀ p ∈ fs.inDir, p ∈ fs1.inDir)
      ∧ (∀ p ∈ fs1.inDir, p ∈ fs.inDir
          ∨ (p.2 ∈ batch ∧ ∃ c, mapLookup mapping p.2 = some c ∧ p.1 = sanitize alnum c))
      ∧ (∀ d ∈ fs1.dirs, d ∈ fs.dirs
          ∨ ∃ f, f ∈ batch ∧ ∃ c, mapLookup mapping f = some c ∧ d = sanitize alnum c)
      ∧ (∀ g, (g ∉ batch ∨ mapLookup mapping g = none) →
          ((g ∈ fs1.atRoot ↔ g ∈ fs.atRoot) ∧ (∀ c, (c, g) ∈ fs1.inDir ↔ (c, g) ∈ fs.inDir)))
      ∧ (∀ f ∈ batch, ∀ c, mapLookup mapping f = some c → rf f = false →
          (sanitize alnum c, f) ∈ fs1.inDir ∧ sanitize alnum c ∈ fs1.dirs
          ∧ (fs.atRoot.Nodup → f ∉ fs1.atRoot)) := by
  intro batch
  induction batch with
  | nil =>
    intro fs
    exact ⟨fs, rfl, List.Sublist.refl _, fun d hd => hd, fun p hp => hp,
      fun p hp => Or.inl hp, fun d hd => Or.inl hd,
      fun g _ => ⟨Iff.rfl, fun c => Iff.rfl⟩,
      fun f hf => absurd hf (List.not_mem_nil f)⟩
  | cons f0 rest ih =>
    intro fs
    obtain ⟨fsA, heqA, hsubA, hdirA, hindA, hprovIA, hprovDA, huntA, hmovA⟩ :=
      placeFile_ok alnum cf rf mapping hcf fs f0
    obtain ⟨fs1, heqB, hsubB, hdirB, hindB, hprovIB, hprovDB, huntB, hmovB⟩ := ih fsA
    refine ⟨fs1, ?_, hsubB.trans hsubA, fun d hd => hdirB d (hdirA d hd),
      fun p hp => hindB p (hindA p hp), ?_, ?_, ?_, ?_⟩
    · simp [placeBatch, heqA, heqB]
    · intro p hp
      rcases hprovIB p hp with h | ⟨hmem, c, hc, hcat⟩
      · rcases hprovIA p h with h2 | ⟨hf0, c, hc, hcat⟩
        · exact Or.inl h2
        · exact Or.inr ⟨by rw [hf0]; exact List.mem_cons_self f0 rest, c, by rw [hf0]; exact hc, hcat⟩
      · exact Or.inr ⟨List.mem_cons_of_mem f0 hmem, c, hc, hcat⟩
    · intro d hd
      rcases hprovDB d hd with h | ⟨f, hf, c, hc, hcat⟩
      · rcases hprovDA d h with h2 | ⟨c, hc, hcat⟩
        · exact Or.inl h2
        · exact Or.inr ⟨f0, List.mem_cons_self f0 rest, c, hc, hcat⟩
      · exact Or.inr ⟨f, List.mem_cons_of_mem f0 hf, c, hc, hcat⟩
    · intro g hg
      have hgA : g ≠ f0 ∨ mapLookup mapping g = none := by
        rcases hg with h | h
        · exact Or.inl (fun he => h (he ▸ List.mem_cons_self f0 rest))
        · exact Or.inr h
      have hgB : g ∉ rest ∨ mapLookup mapping g = none := by
        rcases hg with h | h
        · exact Or.inl (fun he => h (List.mem_cons_of_mem f0 he))
        · exact Or.inr h
      obtain ⟨hA1, hA2⟩ := huntA g hgA
      obtain ⟨hB1, hB2⟩ := huntB g hgB
      exact ⟨hB1.trans hA1, fun c => (hB2 c).trans (hA2 c)⟩
    · intro f hf c hc hrf
      rcases List.mem_cons.mp hf with hf0 | hfr
      · subst hf0
        obtain ⟨h1, h2, h3⟩ := hmovA c hc hrf
        refine ⟨hindB _ h1, hdirB _ h2, ?_⟩
        intro hnd
        intro hmem
        exact h3 hnd (hsubB.subset hmem)
      · obtain ⟨h1, h2, h3⟩ := hmovB f hfr c hc hrf
        exact ⟨h1, h2, fun hnd => h3 (hsubA.nodup hnd)⟩

/- C1: per-file placement errors. -/

/-- C1 counterexample: a batch of two mapped files and a later batch,
where creating the first category directory fails. The run aborts with
the propagated error instead of continuing with the remaining file (whose
category creation would have succeeded) and the next batch. -/
theorem cex_C1 :
    runBatches (fun _ _ => AttemptResult.envelope ("\x7b\"a.txt\":\"Docs\",\"b.txt\":\"Notes\"\x7d"))
      (fun d => d == ("Docs")) (fun _ => false) Char.isAlphanum
      (Fs.mk [] (["a.txt", "b.txt", "c.txt"]) []) 0
      ([["a.txt", "b.txt"], ["c.txt"]])
      = Except.error ("Failed to create category directory")
    ∧ mapLookup ([("a.txt", "Docs"), ("b.txt", "Notes")]) ("b.txt") = some ("Notes")
    ∧ (fun d => d == ("Docs")) ("Notes") = false := by
  exact ⟨rfl, by decide, by decide⟩

/-- C1 amended: a directory-creation failure during placement is not
contained at file granularity: it propagates out of the placement loop
and process_batch and aborts the whole run. Only a rename failure is
contained at file granularity: with no directory-creation failures the
placement loop always succeeds, whatever renames fail, and the run
continues. -/
theorem claim_C1_amended (alnum : Char → Bool) (cf rf : String → Bool) (mapping : Mapping) :
    (∀ fs f c rest, mapLookup mapping f = some c → sanitize alnum c ∉ fs.dirs →
        cf (sanitize alnum c) = true →
        placeBatch alnum cf rf mapping fs (f :: rest)
          = Except.error ("Failed to create category directory"))
    ∧ (∀ oracles i fs b rest e,
        process_batch (oracles i) cf rf alnum fs b = Except.error e →
        runBatches oracles cf rf alnum fs i (b :: rest) = Except.error e)
    ∧ ((∀ d, cf d = false) →
        ∀ batch fs, ∃ fs1, placeBatch alnum cf rf mapping fs batch = Except.ok fs1) := by
  refine ⟨?_, ?_, ?_⟩
  · intro fs f c rest h1 h2 h3
    simp [placeBatch, placeFile, h1, createDirIfNeeded, h2, h3]
  · intro oracles i fs b rest e h
    simp [runBatches, h]
  · intro hcf batch fs
    obtain ⟨fs1, heq, _⟩ := placeBatch_invariant alnum cf rf mapping hcf batch fs
    exact ⟨fs1, heq⟩

/-- C1 witness: the amended theorem applied at a concrete mapped file
whose category directory cannot be created. -/
theorem claim_C1_witness :
    placeBatch Char.isAlphanum (fun d => d == ("Docs")) (fun _ => false)
      ([("a.txt", "Docs")]) (Fs.mk [] (["a.txt"]) []) (["a.txt"])
      = Except.error ("Failed to create category directory") := by
  exact (claim_C1_amended Char.isAlphanum (fun d => d == ("Docs")) (fun _ => false)
    ([("a.txt", "Docs")])).1 (Fs.mk [] (["a.txt"]) []) ("a.txt") ("Docs") []
    (by decide) (by simp) (by decide)

/- C7: placement respects the mapping. -/

/-- C7: under a validated mapping with no filesystem failures, a batch
file absent from the mapping is left untouched (not moved, nothing added
for it), while every batch file present in the mapping is moved into the
directory named by its sanitized category; with the concrete instance
from the spec, where only x.jpg moves into Images and y.jpg stays. -/
theorem claim_C7 (alnum : Char → Bool) (cf rf : String → Bool) (mapping : Mapping)
    (batch : List String) (fs : Fs)
    (hcf : ∀ d, cf d = false) (hrf : ∀ f, rf f = false) (hnd : fs.atRoot.Nodup) :
    (∃ fs1, placeBatch alnum cf rf mapping fs batch = Except.ok fs1)
    ∧ (∀ fs1, placeBatch alnum cf rf mapping fs batch = Except.ok fs1 →
        (∀ f ∈ batch, mapLookup mapping f = none →
          ((f ∈ fs1.atRoot ↔ f ∈ fs.atRoot) ∧ ∀ c, ((c, f) ∈ fs1.inDir ↔ (c, f) ∈ fs.inDir)))
        ∧ (∀ f ∈ batch, ∀ c, mapLookup mapping f = some c →
          (sanitize alnum c, f) ∈ fs1.inDir ∧ f ∉ fs1.atRoot ∧ sanitize alnum c ∈ fs1.dirs))
    ∧ placeBatch Char.isAlphanum (fun _ => false) (fun _ => false)
        ([("x.jpg", "Images")]) (Fs.mk [] (["x.jpg", "y.jpg"]) [])
        (["x.jpg", "y.jpg"])
        = Except.ok (Fs.mk (["Images"]) (["y.jpg"]) ([("Images", "x.jpg")])) := by
  obtain ⟨fs1, heq, hsub, hdirs, hind, hprovI, hprovD, hunt, hmov⟩ :=
    placeBatch_invariant alnum cf rf mapping hcf batch fs
  refine ⟨⟨fs1, heq⟩, ?_, rfl⟩
  intro fs2 heq2
  have hfs : fs2 = fs1 := by
    rw [heq] at heq2
    exact (Except.ok.inj heq2).symm
  subst hfs
  constructor
  · intro f _ hnone
    exact hunt f (Or.inr hnone)
  · intro f hf c hc
    obtain ⟨h1, h2, h3⟩ := hmov f hf c hc (hrf f)
    exact ⟨h1, h3 hnd, h2⟩

/-- C7 witness: the placement theorem at the concrete spec example. -/
theorem claim_C7_witness :
    placeBatch Char.isAlphanum (fun _ => false) (fun _ => false)
      ([("x.jpg", "Images")]) (Fs.mk [] (["x.jpg", "y.jpg"]) [])
      (["x.jpg", "y.jpg"])
      = Except.ok (Fs.mk (["Images"]) (["y.jpg"]) ([("Images", "x.jpg")])) := by
  exact (claim_C7 Char.isAlphanum (fun _ => false) (fun _ => false)
    ([("x.jpg", "Images")]) (["x.jpg", "y.jpg"]) (Fs.mk [] (["x.jpg", "y.jpg"]) [])
    (fun _ => rfl) (fun _ => rfl) (by decide)).2.2

/- C9: the placement loop iterates over the batch only. -/

/-- C9: the Placement Executor iterates over the batch files only: every
moved file is a batch member with its mapping entry, every new directory
is the sanitized category of some batch member present in the mapping,
and files outside the batch are untouched; hence a mapping key matching
no batch file has no effect, as in the concrete instance where the ghost
entry creates no Docs directory and moves nothing. -/
theorem claim_C9 (alnum : Char → Bool) (cf rf : String → Bool) (mapping : Mapping)
    (batch : List String) (fs : Fs) (hcf : ∀ d, cf d = false) :
    (∃ fs1, placeBatch alnum cf rf mapping fs batch = Except.ok fs1)
    ∧ (∀ fs1, placeBatch alnum cf rf mapping fs batch = Except.ok fs1 →
        (∀ p ∈ fs1.inDir, p ∈ fs.inDir
          ∨ (p.2 ∈ batch ∧ ∃ c, mapLookup mapping p.2 = some c ∧ p.1 = sanitize alnum c))
        ∧ (∀ d ∈ fs1.dirs, d ∈ fs.dirs
          ∨ ∃ f, f ∈ batch ∧ ∃ c, mapLookup mapping f = some c ∧ d = sanitize alnum c)
        ∧ (∀ g, g ∉ batch →
          ((g ∈ fs1.atRoot ↔ g ∈ fs.atRoot) ∧ ∀ c, ((c, g) ∈ fs1.inDir ↔ (c, g) ∈ fs.inDir))))
    ∧ placeBatch Char.isAlphanum (fun _ => false) (fun _ => false)
        ([("x.jpg", "Images"), ("ghost.txt", "Docs")]) (Fs.mk [] (["x.jpg"]) [])
        (["x.jpg"])
        = Except.ok (Fs.mk (["Images"]) [] ([("Images", "x.jpg")])) := by
  obtain ⟨fs1, heq, hsub, hdirs, hind, hprovI, hprovD, hunt, hmov⟩ :=
    placeBatch_invariant alnum cf rf mapping hcf batch fs
  refine ⟨⟨fs1, heq⟩, ?_, rfl⟩
  intro fs2 heq2
  have hfs : fs2 = fs1 := by
    rw [heq] at heq2
    exact (Except.ok.inj heq2).symm
  subst hfs
  exact ⟨hprovI, hprovD, fun g hg => hunt g (Or.inl hg)⟩

/-- C9 witness: the frame theorem at a concrete mapping whose second key
matches no batch file. -/
theorem claim_C9_witness :
    placeBatch Char.isAlphanum (fun _ => false) (fun _ => false)
      ([("x.jpg", "Images"), ("ghost.txt", "Docs")]) (Fs.mk [] (["x.jpg"]) [])
      (["x.jpg"])
      = Except.ok (Fs.mk (["Images"]) [] ([("Images", "x.jpg")])) := by
  exact (claim_C9 Char.isAlphanum (fun _ => false) (fun _ => false)
    ([("x.jpg", "Images"), ("ghost.txt", "Docs")]) (["x.jpg"]) (Fs.mk [] (["x.jpg"]) [])
    (fun _ => rfl)).2.2

/- C6: rejection of malformed responses. -/

/-- C6: whenever the response text does not parse as a JSON object with
all string values, the attempt produces no mapping and the emitted parse
diagnostic carries the original raw response text; representative
non-object inputs and objects with a non-string value are rejected whole
(no partial-mapping recovery), while a string-valued object parses. -/
theorem claim_C6 (raw : String) (attempt maxR : Nat)
    (hfail : parseResponse raw = none) :
    attemptMapping (AttemptResult.envelope raw) = none
    ∧ (∃ p, attemptLog attempt maxR (AttemptResult.envelope raw) = [p ++ raw])
    ∧ parseResponse ("[1, 2]") = none
    ∧ parseResponse ("\"hi\"") = none
    ∧ parseResponse ("42") = none
    ∧ parseResponse ("null") = none
    ∧ parseResponse ("true") = none
    ∧ parseResponse ("\x7b\"a\":1\x7d") = none
    ∧ parseResponse ("\x7b\"a\":\"x\",\"b\":[\"y\"]\x7d") = none
    ∧ parseResponse ("\x7b\"a\":\"x\",\"b\":\x7b\x7d\x7d") = none
    ∧ serdeFromStr ("\x7b\"a\":\"x\",\"b\":\"y\"\x7d") = some ([("a", "x"), ("b", "y")]) := by
  refine ⟨by simp [attemptMapping, hfail], ?_, by decide, by decide, by decide, by decide,
    by decide, by decide, by decide, by decide, by decide⟩
  exact ⟨("JSON Parse Error (Attempt ") ++ toString attempt ++ ("/") ++ toString maxR
    ++ ("). Response was: "), by simp [attemptLog, hfail]⟩

/-- C6 witness: the rejection theorem at a concrete unparseable raw
response. -/
theorem claim_C6_witness :
    attemptMapping (AttemptResult.envelope ("I cannot help with that")) = none
    ∧ parseResponse ("\x7b\"a\":1\x7d") = none := by
  have h := claim_C6 ("I cannot help with that") 1 3 (by decide)
  exact ⟨h.1, h.2.2.2.2.2.2.2.1⟩

/- Helper lemmas for the code-fence analysis. -/

theorem data_append (a b : String) : (a ++ b).data = a.data ++ b.data := by
  cases a
  cases b
  rfl

theorem headNotWs_append (p x : List Char) (hp : p.head?.map isWs = some false) :
    ∀ e, ((p ++ x).head? = some e) → isWs e = false := by
  intro e he
  cases p with
  | nil => exact Option.noConfusion hp
  | cons a as =>
    simp only [List.cons_append, List.head?_cons] at he
    have ha : a = e := Option.some.inj he
    have hw : isWs a = false := by simpa using hp
    rw [← ha]
    exact hw

theorem getLast?_append_right (x p : List Char) (hp : p ≠ []) :
    (x ++ p).getLast? = p.getLast? := by
  rw [← List.head?_reverse, ← List.head?_reverse, List.reverse_append]
  cases hrev : p.reverse with
  | nil => exact absurd (by simpa using congrArg List.reverse hrev) hp
  | cons a as => simp [hrev]

theorem lastNotWs_append (x p : List Char) (hp : p.getLast?.map isWs = some false) :
    ∀ e, ((x ++ p).getLast? = some e) → isWs e = false := by
  intro e he
  have hpne : p ≠ [] := by
    intro h
    rw [h] at hp
    exact Option.noConfusion hp
  rw [getLast?_append_right x p hpne] at he
  rw [he] at hp
  simpa using hp

theorem stripPreChars_head_ne (p x : List Char) (c : Char)
    (hp : p.head?.map (fun d => decide (d = c)) = some false) :
    stripPreChars p (c :: x) = none := by
  cases p with
  | nil => exact Option.noConfusion hp
  | cons a as =>
    have hd : decide (a = c) = false := by simpa using hp
    have hne : a ≠ c := of_decide_eq_false hd
    simp [stripPreChars, hne]

theorem stripPreOr_self (p x : List Char) : stripPreOr p (p ++ x) = x := by
  unfold stripPreOr
  rw [stripPreChars_self_append]

theorem stripPreOr_none (p l : List Char) (h : stripPreChars p l = none) :
    stripPreOr p l = l := by
  unfold stripPreOr
  rw [h]

theorem stripSufOr_append (p q : List Char) : stripSufOr p (q ++ p) = q := by
  unfold stripSufOr
  rw [List.reverse_append, stripPreChars_self_append]
  simp

theorem stripSufOr_none (p l : List Char) (h : stripPreChars p.reverse l.reverse = none) :
    stripSufOr p l = l := by
  unfold stripSufOr
  rw [h]

/- C5: fence stripping. -/

/-- C5 counterexample: a code fence whose opener carries a language tag
other than json (here javascript) is not stripped, so parsing the fenced
object fails even though the unfenced object parses to a mapping. -/
theorem cex_C5 :
    parseResponse ("```javascript\n\x7b\"a.txt\":\"Docs\"\x7d\n```") = none
    ∧ parseResponse ("\x7b\"a.txt\":\"Docs\"\x7d") = some ([("a.txt", "Docs")]) := by
  exact ⟨by decide, by decide⟩

/-- C5 amended: for JSON object text t of string-to-string values
(trimmed, brace-delimited), wrapping t in a markdown code fence whose
opener carries either no language tag or exactly the tag json — with or
without a closing fence, with surrounding whitespace — parses to the
same mapping as the unfenced t. An opener with any other language tag is
not stripped by the cleaner and the parse fails, as the counterexample
shows. -/
theorem claim_C5_amended (t : String) (m : Mapping) (w1 w2 : String)
    (hm : serdeFromStr t = some m)
    (hh : t.data.head? = some ('\x7b'))
    (hl : t.data.getLast? = some ('\x7d'))
    (hw1 : ∀ c ∈ w1.data, isWs c = true)
    (hw2 : ∀ c ∈ w2.data, isWs c = true) :
    parseResponse t = some m
    ∧ parseResponse (w1 ++ ("```json\n") ++ t ++ ("\n```") ++ w2) = some m
    ∧ parseResponse (w1 ++ ("```\n") ++ t ++ ("\n```") ++ w2) = some m
    ∧ parseResponse (w1 ++ ("```json\n") ++ t) = some m
    ∧ parseResponse (t ++ ("\n```")) = some m := by
  have hD1 : t.data ≠ [] := by
    intro h
    rw [h] at hh
    exact Option.noConfusion hh
  have hhead : ∀ c, t.data.head? = some c → isWs c = false := by
    intro c hc
    rw [hh] at hc
    rw [← Option.some.inj hc]
    decide
  have hlast : ∀ c, t.data.getLast? = some c → isWs c = false := by
    intro c hc
    rw [hl] at hc
    rw [← Option.some.inj hc]
    decide
  have hDhead : t.data.head?.map isWs = some false := by rw [hh]; rfl
  have hDlast : t.data.getLast?.map isWs = some false := by rw [hl]; rfl
  have htid : trimChars t.data = t.data := trimChars_id _ hhead hlast hD1
  have hser : parseTopObject t.data = some m := by
    unfold serdeFromStr at hm
    rw [htid] at hm
    exact hm
  obtain ⟨tl, htl⟩ : ∃ tl, t.data = ('\x7b') :: tl := by
    cases hd : t.data with
    | nil =>
      rw [hd] at hh
      exact Option.noConfusion hh
    | cons a as =>
      rw [hd] at hh
      have ha : a = ('\x7b') := by simpa using hh
      exact ⟨as, by rw [ha]⟩
  obtain ⟨R, hR⟩ : ∃ R, t.data.reverse = ('\x7d') :: R := by
    have hrevh : t.data.reverse.head? = some ('\x7d') := by
      rw [List.head?_reverse]
      exact hl
    cases hd : t.data.reverse with
    | nil =>
      rw [hd] at hrevh
      exact Option.noConfusion hrevh
    | cons a as =>
      rw [hd] at hrevh
      have ha : a = ('\x7d') := by simpa using hrevh
      exact ⟨as, by rw [ha]⟩
  have hnofj : stripPreChars (("```json").data) t.data = none := by
    rw [htl]
    exact stripPreChars_head_ne _ _ _ (by decide)
  have hnof : stripPreChars (("```").data) t.data = none := by
    rw [htl]
    exact stripPreChars_head_ne _ _ _ (by decide)
  have hnosuf : stripPreChars (("```").data).reverse t.data.reverse = none := by
    rw [hR]
    exact stripPreChars_head_ne _ _ _ (by decide)
  have hE : parseResponse t = some m := by
    unfold parseResponse cleanChars
    rw [htid, stripPreOr_none _ _ hnofj, stripPreOr_none _ _ hnof,
      stripSufOr_none _ _ hnosuf, htid]
    exact hser
  have hstep2 : stripPreOr (("```").data) (('\n') :: (t.data ++ ("\n```").data))
      = ('\n') :: (t.data ++ ("\n```").data) :=
    stripPreOr_none _ _ (stripPreChars_head_ne _ _ _ (by decide))
  have hstep3 : stripSufOr (("```").data) (('\n') :: (t.data ++ ("\n```").data))
      = ('\n') :: (t.data ++ ('\n') :: []) := by
    rw [show ('\n') :: (t.data ++ ("\n```").data)
        = (('\n') :: (t.data ++ ('\n') :: [])) ++ ("```").data by
      simp [(by decide : ("\n```").data = ('\n') :: ("```").data)]]
    exact stripSufOr_append _ _
  have hstep4 : trimChars (('\n') :: (t.data ++ ('\n') :: [])) = t.data := by
    rw [show ('\n') :: (t.data ++ ('\n') :: [])
        = (('\n') :: []) ++ t.data ++ (('\n') :: []) by simp]
    exact trimChars_sandwich _ _ _ (by decide) (by decide) hhead hlast hD1
  have hA : parseResponse (w1 ++ ("```json\n") ++ t ++ ("\n```") ++ w2) = some m := by
    have hdata : (w1 ++ ("```json\n") ++ t ++ ("\n```") ++ w2).data
        = w1.data ++ (("```json\n").data ++ (t.data ++ ("\n```").data)) ++ w2.data := by
      simp [data_append]
    have hh1 : ∀ c, ((("```json\n").data ++ (t.data ++ ("\n```").data)).head? = some c)
        → isWs c = false := headNotWs_append _ _ (by decide)
    have hl1 : ∀ c, ((("```json\n").data ++ (t.data ++ ("\n```").data)).getLast? = some c)
        → isWs c = false := by
      intro c hc
      apply lastNotWs_append (("```json\n").data ++ t.data) (("\n```").data) (by decide) c
      rw [List.append_assoc]
      exact hc
    have hne1 : ("```json\n").data ++ (t.data ++ ("\n```").data) ≠ [] := by
      intro h
      exact absurd (List.append_eq_nil.mp h).1 (by decide)
    have hstep1 : stripPreOr (("```json").data)
        (("```json\n").data ++ (t.data ++ ("\n```").data))
        = ('\n') :: (t.data ++ ("\n```").data) := by
      rw [show ("```json\n").data ++ (t.data ++ ("\n```").data)
          = ("```json").data ++ (('\n') :: (t.data ++ ("\n```").data)) by
        simp [(by decide : ("```json\n").data = ("```json").data ++ ('\n') :: [])]]
      exact stripPreOr_self _ _
    unfold parseResponse cleanChars
    rw [hdata, trimChars_sandwich w1.data w2.data _ hw1 hw2 hh1 hl1 hne1,
      hstep1, hstep2, hstep3, hstep4]
    exact hser
  have hB : parseResponse (w1 ++ ("```\n") ++ t ++ ("\n```") ++ w2) = some m := by
    have hdata : (w1 ++ ("```\n") ++ t ++ ("\n```") ++ w2).data
        = w1.data ++ (("```\n").data ++ (t.data ++ ("\n```").data)) ++ w2.data := by
      simp [data_append]
    have hh1 : ∀ c, ((("```\n").data ++ (t.data ++ ("\n```").data)).head? = some c)
        → isWs c = false := headNotWs_append _ _ (by decide)
    have hl1 : ∀ c, ((("```\n").data ++ (t.data ++ ("\n```").data)).getLast? = some c)
        → isWs c = false := by
      intro c hc
      apply lastNotWs_append (("```\n").data ++ t.data) (("\n```").data) (by decide) c
      rw [List.append_assoc]
      exact hc
    have hne1 : ("```\n").data ++ (t.data ++ ("\n```").data) ≠ [] := by
      intro h
      exact absurd (List.append_eq_nil.mp h).1 (by decide)
    have hshape : ("```\n").data ++ (t.data ++ ("\n```").data)
        = ("```").data ++ (('\n') :: (t.data ++ ("\n```").data)) := by
      simp [(by decide : ("```\n").data = ("```").data ++ ('\n') :: [])]
    have hstep0 : stripPreOr (("```json").data)
        (("```\n").data ++ (t.data ++ ("\n```").data))
        = ("```\n").data ++ (t.data ++ ("\n```").data) := by
      apply stripPreOr_none
      rw [hshape, (by decide : ("```json").data = ("```").data ++ ("json").data),
        stripPreChars_cancel]
      exact stripPreChars_head_ne _ _ _ (by decide)
    have hstep1 : stripPreOr (("```").data)
        (("```\n").data ++ (t.data ++ ("\n```").data))
        = ('\n') :: (t.data ++ ("\n```").data) := by
      rw [hshape]
      exact stripPreOr_self _ _
    unfold parseResponse cleanChars
    rw [hdata, trimChars_sandwich w1.data w2.data _ hw1 hw2 hh1 hl1 hne1,
      hstep0, hstep1, hstep3, hstep4]
    exact hser
  have hC : parseResponse (w1 ++ ("```json\n") ++ t) = some m := by
    have hdata : (w1 ++ ("```json\n") ++ t).data
        = w1.data ++ (("```json\n").data ++ t.data) ++ ([] : List Char) := by
      simp [data_append]
    have hh1 : ∀ c, ((("```json\n").data ++ t.data).head? = some c)
        → isWs c = false := headNotWs_append _ _ (by decide)
    have hl1 : ∀ c, ((("```json\n").data ++ t.data).getLast? = some c)
        → isWs c = false := lastNotWs_append _ _ hDlast
    have hne1 : ("```json\n").data ++ t.data ≠ [] := by
      intro h
      exact absurd (List.append_eq_nil.mp h).1 (by decide)
    have hstep1 : stripPreOr (("```json").data) (("```json\n").data ++ t.data)
        = ('\n') :: t.data := by
      rw [show ("```json\n").data ++ t.data
          = ("```json").data ++ (('\n') :: t.data) by
        simp [(by decide : ("```json\n").data = ("```json").data ++ ('\n') :: [])]]
      exact stripPreOr_self _ _
    have hstep2c : stripPreOr (("```").data) (('\n') :: t.data) = ('\n') :: t.data :=
      stripPreOr_none _ _ (stripPreChars_head_ne _ _ _ (by decide))
    have hrev2 : (('\n') :: t.data).reverse = ('\x7d') :: (R ++ ('\n') :: []) := by
      rw [List.reverse_cons, hR]
      simp
    have hstep3c : stripSufOr (("```").data) (('\n') :: t.data) = ('\n') :: t.data := by
      apply stripSufOr_none
      rw [hrev2]
      exact stripPreChars_head_ne _ _ _ (by decide)
    have hstep4c : trimChars (('\n') :: t.data) = t.data := by
      rw [show ('\n') :: t.data = (('\n') :: []) ++ t.data ++ ([] : List Char) by simp]
      exact trimChars_sandwich _ _ _ (by decide) (by decide) hhead hlast hD1
    unfold parseResponse cleanChars
    rw [hdata, trimChars_sandwich w1.data ([] : List Char) _ hw1
        (fun c hc => absurd hc (List.not_mem_nil c)) hh1 hl1 hne1,
      hstep1, hstep2c, hstep3c, hstep4c]
    exact hser
  have hD : parseResponse (t ++ ("\n```")) = some m := by
    have hdata : (t ++ ("\n```")).data
        = ([] : List Char) ++ (t.data ++ ("\n```").data) ++ ([] : List Char) := by
      simp [data_append]
    have hh1 : ∀ c, ((t.data ++ ("\n```").data).head? = some c)
        → isWs c = false := headNotWs_append _ _ hDhead
    have hl1 : ∀ c, ((t.data ++ ("\n```").data).getLast? = some c)
        → isWs c = false := lastNotWs_append _ _ (by decide)
    have hne1 : t.data ++ ("\n```").data ≠ [] := by
      intro h
      exact absurd (List.append_eq_nil.mp h).1 hD1
    have hstep0 : stripPreOr (("```json").data) (t.data ++ ("\n```").data)
        = t.data ++ ("\n```").data := by
      apply stripPreOr_none
      rw [htl, List.cons_append]
      exact stripPreChars_head_ne _ _ _ (by decide)
    have hstep1 : stripPreOr (("```").data) (t.data ++ ("\n```").data)
        = t.data ++ ("\n```").data := by
      apply stripPreOr_none
      rw [htl, List.cons_append]
      exact stripPreChars_head_ne _ _ _ (by decide)
    have hstep2d : stripSufOr (("```").data) (t.data ++ ("\n```").data)
        = t.data ++ ('\n') :: [] := by
      rw [show t.data ++ ("\n```").data = (t.data ++ ('\n') :: []) ++ ("```").data by
        simp [(by decide : ("\n```").data = ('\n') :: ("```").data)]]
      exact stripSufOr_append _ _
    have hstep3d : trimChars (t.data ++ ('\n') :: []) = t.data := by
      rw [show t.data ++ ('\n') :: [] = ([] : List Char) ++ t.data ++ (('\n') :: []) by simp]
      exact trimChars_sandwich _ _ _ (fun c hc => absurd hc (List.not_mem_nil c))
        (by decide) hhead hlast hD1
    unfold parseResponse cleanChars
    rw [hdata, trimChars_sandwich ([] : List Char) ([] : List Char) _
        (fun c hc => absurd hc (List.not_mem_nil c))
        (fun c hc => absurd hc (List.not_mem_nil c)) hh1 hl1 hne1,
      hstep0, hstep1, hstep2d, hstep3d]
    exact hser
  exact ⟨hE, hA, hB, hC, hD⟩

/-- C5 witness: the fence theorem at the spec example, a json-tagged
fence around a one-entry object. -/
theorem claim_C5_witness :
    parseResponse (("") ++ ("```json\n") ++ ("\x7b\"a.txt\":\"Docs\"\x7d") ++ ("\n```") ++ (""))
      = some ([("a.txt", "Docs")]) := by
  exact (claim_C5_amended ("\x7b\"a.txt\":\"Docs\"\x7d") ([("a.txt", "Docs")]) ("") ("")
    (by decide) (by decide) (by decide)
    (fun c hc => absurd hc (List.not_mem_nil c))
    (fun c hc => absurd hc (List.not_mem_nil c))).2.1
